import Mathlib

/-!
Verification of the rain BitTorrent client core against its specification.

The development shallowly embeds the Go sources:
  - the metainfo parsing code (Info, NewInfo, PieceHash, GetFiles),
    including a model of the external bencode decoder and of SHA-1;
  - the public Torrent API (Start, Stop, Close, Stats, NotifyComplete,
    NotifyError), as a model of Go channel select readiness;
  - the one-shot downloader loop of the command-line entry point.
Machine integers are modelled as Nat / Int with explicit reduction
modulo 2^32 (uint32) and 2^64 (int64 wrap-around).
-/

set_option maxRecDepth 100000

namespace Rain

/-- Bytes of an ASCII string literal, as natural numbers. -/
def strBytes (s : String) : List Nat := s.data.map Char.toNat

/-- Reduction modulo 2^32, the uint32 value of a natural number. -/
def w32 (n : Nat) : Nat := n % 4294967296

/-- Rotate a 32-bit word (value < 2^32) left by s bits. -/
def rotl (s n : Nat) : Nat := w32 (n * 2 ^ s + n / 2 ^ (32 - s))

/-- Big-endian bytes of a number, k bytes wide. -/
def beBytes : Nat → Nat → List Nat
  | 0, _ => []
  | k + 1, n => n / 2 ^ (8 * k) % 256 :: beBytes k n

/-- Big-endian value of a byte list. -/
def beVal (l : List Nat) : Nat := l.foldl (fun a b => a * 256 + b) 0

/-- SHA-1 padding: 0x80, zeros to 56 mod 64, then the 64-bit bit length. -/
def sha1pad (msg : List Nat) : List Nat :=
  msg ++ 128 :: List.replicate ((119 - msg.length % 64) % 64) 0 ++ beBytes 8 (8 * msg.length)

/-- Split a byte list into 64-byte chunks (fuel-driven for kernel reduction). -/
def chunks64 : Nat → List Nat → List (List Nat)
  | 0, _ => []
  | fuel + 1, l => if l = [] then [] else l.take 64 :: chunks64 fuel (l.drop 64)

/-- The sixteen big-endian 32-bit words of a 64-byte block. -/
def blockWords (block : List Nat) : List Nat :=
  (List.range 16).map (fun j => beVal ((block.drop (4 * j)).take 4))

/-- Extend the message schedule; the accumulator list is reversed
(head is the most recent word). -/
def extendW : Nat → List Nat → List Nat
  | 0, ws => ws
  | k + 1, ws =>
      extendW k (rotl 1 (ws.getD 2 0 ^^^ ws.getD 7 0 ^^^ ws.getD 13 0 ^^^ ws.getD 15 0) :: ws)

/-- The 80-entry SHA-1 message schedule of one block. -/
def sha1Sched (block : List Nat) : List Nat := (extendW 64 (blockWords block).reverse).reverse

/-- Working state of the SHA-1 compression function. -/
structure ShaState where
  a : Nat
  b : Nat
  c : Nat
  d : Nat
  e : Nat
  deriving DecidableEq

/-- Bitwise complement on 32 bits (for values < 2^32). -/
def notW32 (n : Nat) : Nat := 4294967295 - n

/-- The SHA-1 round function for round t. -/
def shaF (t b c d : Nat) : Nat :=
  if t < 20 then (b &&& c) ||| (notW32 b &&& d)
  else if t < 40 then b ^^^ c ^^^ d
  else if t < 60 then (b &&& c) ||| (b &&& d) ||| (c &&& d)
  else b ^^^ c ^^^ d

/-- The SHA-1 round constant for round t. -/
def shaK (t : Nat) : Nat :=
  if t < 20 then 1518500249
  else if t < 40 then 1859775393
  else if t < 60 then 2400959708
  else 3395469782

/-- One SHA-1 round; tw is the (round index, schedule word) pair. -/
def shaRound (st : ShaState) (tw : Nat × Nat) : ShaState :=
  ⟨w32 (rotl 5 st.a + shaF tw.1 st.b st.c st.d + st.e + shaK tw.1 + tw.2),
   st.a, rotl 30 st.b, st.c, st.d⟩

/-- Compress one 64-byte block into the running state. -/
def sha1Block (h : ShaState) (block : List Nat) : ShaState :=
  let f := (sha1Sched block).enum.foldl shaRound h
  ⟨w32 (h.a + f.a), w32 (h.b + f.b), w32 (h.c + f.c), w32 (h.d + f.d), w32 (h.e + f.e)⟩

/-- The SHA-1 initialization vector. -/
def shaInit : ShaState := ⟨1732584193, 4023233417, 2562383102, 271733878, 3285377520⟩

/-- SHA-1 digest (20 bytes) of a byte list, modelling Go crypto/sha1. -/
def sha1Bytes (msg : List Nat) : List Nat :=
  let padded := sha1pad msg
  let f := (chunks64 padded.length padded).foldl sha1Block shaInit
  beBytes 4 f.a ++ beBytes 4 f.b ++ beBytes 4 f.c ++ beBytes 4 f.d ++ beBytes 4 f.e

/-- Sanity check of the SHA-1 model against the standard test vector for the
three-byte message abc. -/
theorem sha1Bytes_abc :
    sha1Bytes (strBytes ("abc")) =
      [0xa9, 0x99, 0x3e, 0x36, 0x47, 0x06, 0x81, 0x6a, 0xba, 0x3e, 0x25, 0x71,
       0x78, 0x50, 0xc2, 0x6c, 0x9c, 0xd0, 0xd8, 0x9d] := by decide

/-! ## Bencode decoding

Modelled from the spec: the metainfo bytes are decoded by the external
bencode library (github.com/zeebo/bencode), which is outside this
repository.  The model follows the standard bencode format: integers
i..e, length-prefixed strings, lists l..e and dictionaries d..e with
string keys; the decoder reads one value and ignores trailing bytes,
fills Go struct fields by tag with later duplicate keys overwriting
earlier ones, skips unknown keys, and rejects values outside the range
of the target integer type. -/

/-- A decoded bencode value. -/
inductive Bval where
  | int : Int → Bval
  | str : List Nat → Bval
  | list : List Bval → Bval
  | dict : List (List Nat × Bval) → Bval

/-- Whether a byte is an ASCII digit. -/
def isDigitByte (c : Nat) : Bool := 48 ≤ c && c ≤ 57

/-- Decimal value of a list of ASCII digit bytes. -/
def digitsToNat (ds : List Nat) : Nat := ds.foldl (fun a c => a * 10 + (c - 48)) 0

/-- Parse an unsigned decimal integer terminated by the byte e. -/
def parseUIntBody (input : List Nat) : Option (Nat × List Nat) :=
  let p := List.span isDigitByte input
  if p.1 = [] then none
  else
    match p.2 with
    | 101 :: r => some (digitsToNat p.1, r)
    | _ => none

/-- Parse the body of a bencode integer (after the byte i), with optional sign. -/
def parseIntBody (input : List Nat) : Option (Int × List Nat) :=
  match input with
  | 45 :: rest =>
      match parseUIntBody rest with
      | some (n, r) => some (-(n : Int), r)
      | none => none
  | _ =>
      match parseUIntBody input with
      | some (n, r) => some ((n : Int), r)
      | none => none

/-- Parse a bencode string: decimal length, the byte colon, then that many bytes. -/
def parseStr (input : List Nat) : Option (List Nat × List Nat) :=
  let p := List.span isDigitByte input
  if p.1 = [] then none
  else
    match p.2 with
    | 58 :: rest2 =>
        let n := digitsToNat p.1
        if n ≤ rest2.length then some (rest2.take n, rest2.drop n) else none
    | _ => none

mutual

/-- Parse one bencode value (fuel-driven). -/
def parseVal : Nat → List Nat → Option (Bval × List Nat)
  | 0, _ => none
  | _ + 1, [] => none
  | fuel + 1, c :: rest =>
    if c = 105 then
      match parseIntBody rest with
      | some (n, r) => some (.int n, r)
      | none => none
    else if c = 108 then parseItems fuel rest []
    else if c = 100 then parseEntries fuel rest []
    else
      match parseStr (c :: rest) with
      | some (s, r) => some (.str s, r)
      | none => none

/-- Parse the elements of a bencode list up to the closing byte e. -/
def parseItems : Nat → List Nat → List Bval → Option (Bval × List Nat)
  | 0, _, _ => none
  | _ + 1, [], _ => none
  | fuel + 1, c :: rest, acc =>
    if c = 101 then some (.list acc.reverse, rest)
    else
      match parseVal fuel (c :: rest) with
      | some (v, r) => parseItems fuel r (v :: acc)
      | none => none

/-- Parse the key-value entries of a bencode dictionary up to the closing byte e. -/
def parseEntries : Nat → List Nat → List (List Nat × Bval) → Option (Bval × List Nat)
  | 0, _, _ => none
  | _ + 1, [], _ => none
  | fuel + 1, c :: rest, acc =>
    if c = 101 then some (.dict acc.reverse, rest)
    else
      match parseStr (c :: rest) with
      | some (k, r) =>
          match parseVal fuel r with
          | some (v, r2) => parseEntries fuel r2 ((k, v) :: acc)
          | none => none
      | none => none

end

/-- Decode the first bencode value of a byte list (trailing bytes are ignored,
as the Go decoder reads a single value from its reader). -/
def bdecode (b : List Nat) : Option Bval :=
  match parseVal (2 * b.length + 2) b with
  | some (v, _) => some v
  | none => none

/-! ## Metainfo (src/unnamed/part_001) -/

/-- File entry of a multi-file info dictionary (Go struct fileDict). -/
structure fileDict where
  length : Int
  path : List (List Nat)
  md5sum : List Nat
  deriving DecidableEq

/-- The zero value of fileDict. -/
def fileDict0 : fileDict := ⟨0, [], []⟩

/-- Whether an integer fits in a Go int64. -/
def fitsInt64 (n : Int) : Bool :=
  decide (-9223372036854775808 ≤ n ∧ n < 9223372036854775808)

/-- Raw decoded fields of the Go Info struct (before the calculated fields). -/
structure RawInfoFields where
  pieceLength : Nat
  pieces : List Nat
  priv : Nat
  name : List Nat
  length : Int
  md5sum : List Nat
  files : List fileDict
  deriving DecidableEq

/-- The zero value of the raw Info fields. -/
def rawFields0 : RawInfoFields := ⟨0, [], 0, [], 0, [], []⟩

/-- Assign one dictionary entry to a fileDict by bencode tag. -/
def setFileField (fd : fileDict) (k : List Nat) (v : Bval) : Option fileDict :=
  if k = strBytes ("length") then
    match v with
    | .int n => if fitsInt64 n then some { fd with length := n } else none
    | _ => none
  else if k = strBytes ("path") then
    match v with
    | .list l =>
        match l.mapM (fun x => match x with | .str s => some s | _ => none) with
        | some ps => some { fd with path := ps }
        | none => none
    | _ => none
  else if k = strBytes ("md5sum") then
    match v with
    | .str s => some { fd with md5sum := s }
    | _ => none
  else some fd

/-- Fold dictionary entries into a fileDict. -/
def applyFileEntries : fileDict → List (List Nat × Bval) → Option fileDict
  | fd, [] => some fd
  | fd, (k, v) :: rest =>
      match setFileField fd k v with
      | some fd2 => applyFileEntries fd2 rest
      | none => none

/-- Decode one entry of the files list. -/
def decodeFileDict : Bval → Option fileDict
  | .dict es => applyFileEntries fileDict0 es
  | _ => none

/-- Decode the files list of a multi-file info dictionary. -/
def decodeFiles : Bval → Option (List fileDict)
  | .list l => l.mapM decodeFileDict
  | _ => none

/-- Assign one dictionary entry to the raw Info fields by bencode tag;
unknown keys are skipped. -/
def setInfoField (f : RawInfoFields) (k : List Nat) (v : Bval) : Option RawInfoFields :=
  if k = strBytes ("piece length") then
    match v with
    | .int n => if 0 ≤ n then some { f with pieceLength := n.toNat % 4294967296 } else none
    | _ => none
  else if k = strBytes ("pieces") then
    match v with
    | .str s => some { f with pieces := s }
    | _ => none
  else if k = strBytes ("private") then
    match v with
    | .int n => if 0 ≤ n then some { f with priv := n.toNat % 256 } else none
    | _ => none
  else if k = strBytes ("name") then
    match v with
    | .str s => some { f with name := s }
    | _ => none
  else if k = strBytes ("length") then
    match v with
    | .int n => if fitsInt64 n then some { f with length := n } else none
    | _ => none
  else if k = strBytes ("md5sum") then
    match v with
    | .str s => some { f with md5sum := s }
    | _ => none
  else if k = strBytes ("files") then
    match decodeFiles v with
    | some fs => some { f with files := fs }
    | none => none
  else some f

/-- Fold dictionary entries into the raw Info fields. -/
def applyInfoEntries : RawInfoFields → List (List Nat × Bval) → Option RawInfoFields
  | f, [] => some f
  | f, (k, v) :: rest =>
      match setInfoField f k v with
      | some f2 => applyInfoEntries f2 rest
      | none => none

/-- Decode an info dictionary into the raw Info fields; the input must be a
bencode dictionary. -/
def decodeInfoFields (b : List Nat) : Option RawInfoFields :=
  match bdecode b with
  | some (.dict es) => applyInfoEntries rawFields0 es
  | _ => none

/-- The Go Info struct of src/unnamed/part_001, decoded plus calculated fields. -/
structure Info where
  PieceLength : Nat
  Pieces : List Nat
  Private : Nat
  Name : List Nat
  Length : Int
  Md5sum : List Nat
  Files : List fileDict
  Raw : List Nat
  Hash : List Nat
  TotalLength : Int
  NumPieces : Nat
  MultiFile : Bool
  deriving DecidableEq

instance : Inhabited Info :=
  ⟨⟨0, [], 0, [], 0, [], [], [], [], 0, 0, false⟩⟩

/-- Go int64 wrap-around of an integer. -/
def wrap64 (n : Int) : Int :=
  (n + 9223372036854775808) % 18446744073709551616 - 9223372036854775808

/-- Sum of the file lengths accumulated in Go int64 arithmetic, as in the
loop of NewInfo. -/
def sumLen64 (fs : List fileDict) : Int :=
  fs.foldl (fun a fd => wrap64 (a + fd.length)) 0

/-- NewInfo of src/unnamed/part_001: decode the bencoded info dictionary and
fill the calculated fields (Raw, Hash, MultiFile, NumPieces, TotalLength). -/
def NewInfo (b : List Nat) : Option Info :=
  match decodeInfoFields b with
  | none => none
  | some f =>
      some { PieceLength := f.pieceLength, Pieces := f.pieces, Private := f.priv,
             Name := f.name, Length := f.length, Md5sum := f.md5sum, Files := f.files,
             Raw := b, Hash := sha1Bytes b,
             TotalLength := if f.files.isEmpty then f.length else sumLen64 f.files,
             NumPieces := f.pieces.length % 4294967296 / 20,
             MultiFile := !f.files.isEmpty }

/-- PieceHash of src/unnamed/part_001.  A result of none models a Go panic:
either the explicit index-out-of-range panic or a slice-bounds panic.
Index arithmetic is uint32 (sha1.Size = 20). -/
def PieceHash (i : Info) (index : Nat) : Option (List Nat) :=
  if i.NumPieces ≤ index then none
  else if index * 20 % 4294967296 ≤ (index * 20 % 4294967296 + 20) % 4294967296 ∧
          (index * 20 % 4294967296 + 20) % 4294967296 ≤ i.Pieces.length then
    some ((i.Pieces.drop (index * 20 % 4294967296)).take
      ((index * 20 % 4294967296 + 20) % 4294967296 - index * 20 % 4294967296))
  else none

/-- GetFiles of src/unnamed/part_001. -/
def GetFiles (i : Info) : List fileDict :=
  if i.MultiFile then i.Files else [⟨i.Length, [i.Name], i.Md5sum⟩]

/-! ## Properties of NewInfo -/

/-- A small single-file info dictionary accepted by NewInfo:
total length 40, piece length 20, two pieces, forty piece-hash bytes. -/
def sampleBytes : List Nat :=
  strBytes ("d6:lengthi40e4:name1:a12:piece lengthi20e6:pieces40:aaaaaaaaaaaaaaaaaaaaaaaaaaaaaaaaaaaaaaaae")

/-- The Info value NewInfo produces from sampleBytes. -/
def sampleInfo : Info := (NewInfo sampleBytes).getD default

/-- The calculated fields of any Info produced by NewInfo, read off from the
construction in the source. -/
theorem newInfo_props {b : List Nat} {i : Info} (h : NewInfo b = some i) :
    i.NumPieces = i.Pieces.length % 4294967296 / 20 ∧
    i.Hash = sha1Bytes b ∧
    i.MultiFile = !i.Files.isEmpty ∧
    i.TotalLength = (if i.Files.isEmpty then i.Length else sumLen64 i.Files) := by
  unfold NewInfo at h
  cases hd : decodeInfoFields b with
  | none => rw [hd] at h; exact absurd h (by simp)
  | some f =>
      rw [hd] at h
      simp only [Option.some.injEq] at h
      subst h
      exact ⟨rfl, rfl, rfl, rfl⟩

/-- Assigning a dictionary entry either keeps the length field or stores a
value checked to fit in int64. -/
theorem setInfoField_length {f : RawInfoFields} {k : List Nat} {v : Bval}
    {f2 : RawInfoFields} (h : setInfoField f k v = some f2) :
    f2.length = f.length ∨ fitsInt64 f2.length = true := by
  unfold setInfoField at h
  split_ifs at h <;> cases v <;> (try split at h) <;> simp_all <;>
    first
      | (obtain ⟨hc, he⟩ := h; subst he; simp [hc])
      | (subst h; simp)

/-- Folding dictionary entries preserves the int64 range of the length field. -/
theorem applyInfoEntries_length {es : List (List Nat × Bval)} :
    ∀ {f f2 : RawInfoFields}, applyInfoEntries f es = some f2 →
      fitsInt64 f.length = true → fitsInt64 f2.length = true := by
  induction es with
  | nil => intro f f2 h hf; simp [applyInfoEntries] at h; simpa [h.symm] using hf
  | cons kv rest ih =>
      intro f f2 h hf
      obtain ⟨k, v⟩ := kv
      unfold applyInfoEntries at h
      cases hs : setInfoField f k v with
      | none => rw [hs] at h; exact absurd h (by simp)
      | some fmid =>
          rw [hs] at h
          rcases setInfoField_length hs with heq | hfit
          · exact ih h (by rwa [heq])
          · exact ih h hfit

/-- The length field decoded by NewInfo always fits in int64. -/
theorem newInfo_length_range {b : List Nat} {i : Info} (h : NewInfo b = some i) :
    -9223372036854775808 ≤ i.Length ∧ i.Length < 9223372036854775808 := by
  unfold NewInfo at h
  cases hd : decodeInfoFields b with
  | none => rw [hd] at h; exact absurd h (by simp)
  | some f =>
      rw [hd] at h
      simp only [Option.some.injEq] at h
      subst h
      show -9223372036854775808 ≤ f.length ∧ f.length < 9223372036854775808
      have : fitsInt64 f.length = true := by
        unfold decodeInfoFields at hd
        cases hb : bdecode b with
        | none => rw [hb] at hd; exact absurd hd (by simp)
        | some v =>
            rw [hb] at hd
            cases v with
            | dict es => exact applyInfoEntries_length hd (by decide)
            | int n => exact absurd hd (by simp)
            | str s => exact absurd hd (by simp)
            | list l => exact absurd hd (by simp)
      simpa [fitsInt64] using this

/-- Int64 wrap-around is the identity on values in range. -/
theorem wrap64_eq_self {n : Int} (h1 : -9223372036854775808 ≤ n)
    (h2 : n < 9223372036854775808) : wrap64 n = n := by
  unfold wrap64
  rw [Int.emod_eq_of_lt (by omega) (by omega)]
  omega

/-! ## Claims C3, C4, C5, C10 -/

/-- An info dictionary accepted by NewInfo whose piece count does not match
the ceiling formula: total length 100, piece length 30 (so the ceiling is 4),
but only one 20-byte digest in the pieces string. -/
def c3bytes : List Nat :=
  strBytes ("d6:lengthi100e4:name1:a12:piece lengthi30e6:pieces20:aaaaaaaaaaaaaaaaaaaae")

/-- The Info value NewInfo produces from c3bytes. -/
def c3info : Info := (NewInfo c3bytes).getD default

/-- C3 counterexample: NewInfo accepts c3bytes, yet NumPieces = 1 while
the claimed ceiling of TotalLength over PieceLength is 4; NewInfo performs no
validation tying NumPieces to TotalLength and PieceLength. -/
theorem newInfo_numPieces_ceil_cex :
    NewInfo c3bytes = some c3info ∧
    c3info.TotalLength = 100 ∧ c3info.PieceLength = 30 ∧ c3info.NumPieces = 1 ∧
    decide (c3info.NumPieces = (100 + 30 - 1) / 30) = false := by decide

/-- C3 (amended): for every byte string NewInfo accepts, NumPieces is the
floor of uint32(len(Pieces)) divided by 20; when len(Pieces) is a multiple of
20 below 2^32 the pieces string holds exactly NumPieces 20-byte digests.
No relation to the ceiling of TotalLength over PieceLength is enforced. -/
theorem newInfo_numPieces_floor (b : List Nat) (i : Info) (h : NewInfo b = some i) :
    i.NumPieces = i.Pieces.length % 4294967296 / 20 ∧
    (i.Pieces.length < 4294967296 → 20 ∣ i.Pieces.length →
      i.Pieces.length = 20 * i.NumPieces) := by
  obtain ⟨h1, -, -, -⟩ := newInfo_props h
  refine ⟨h1, fun hlt hdvd => ?_⟩
  rw [h1, Nat.mod_eq_of_lt hlt]
  exact (Nat.mul_div_cancel' hdvd).symm

/-- C3 witness: the amended statement evaluated on the sample torrent. -/
theorem newInfo_numPieces_floor_witness :
    sampleInfo.NumPieces = sampleInfo.Pieces.length % 4294967296 / 20 ∧
    (sampleInfo.Pieces.length < 4294967296 → 20 ∣ sampleInfo.Pieces.length →
      sampleInfo.Pieces.length = 20 * sampleInfo.NumPieces) :=
  newInfo_numPieces_floor sampleBytes sampleInfo (by decide)

/-- C4: for an Info produced by NewInfo and a representable index, PieceHash
returns exactly bytes [20i, 20i+20) of Pieces when i < NumPieces (neither
panic branch is reachable), and panics (none) when i ≥ NumPieces. -/
theorem pieceHash_spec (b : List Nat) (i : Info) (idx : Nat) (h : NewInfo b = some i)
    (hrep : idx < 4294967296) :
    (idx < i.NumPieces → PieceHash i idx = some ((i.Pieces.drop (20 * idx)).take 20)) ∧
    (i.NumPieces ≤ idx → PieceHash i idx = none) := by
  obtain ⟨h1, -, -, -⟩ := newInfo_props h
  constructor
  · intro hlt
    rw [h1] at hlt
    have hm : i.Pieces.length % 4294967296 < 4294967296 :=
      Nat.mod_lt _ (by norm_num)
    have h2 : (idx + 1) * 20 ≤ i.Pieces.length % 4294967296 :=
      le_trans (Nat.mul_le_mul_right 20 hlt) (Nat.div_mul_le_self _ 20)
    have h3 : i.Pieces.length % 4294967296 ≤ i.Pieces.length := Nat.mod_le _ _
    have hs1 : idx * 20 % 4294967296 = idx * 20 := Nat.mod_eq_of_lt (by omega)
    unfold PieceHash
    rw [if_neg (by omega), hs1]
    have hs2 : (idx * 20 + 20) % 4294967296 = idx * 20 + 20 := Nat.mod_eq_of_lt (by omega)
    rw [hs2, if_pos ⟨by omega, by omega⟩]
    have e1 : idx * 20 + 20 - idx * 20 = 20 := by omega
    rw [e1, Nat.mul_comm 20 idx]
  · intro hge
    unfold PieceHash
    rw [if_pos (by omega)]

/-- C4 witness: PieceHash on the sample torrent, in range and out of range. -/
theorem pieceHash_witness :
    PieceHash sampleInfo 0 = some ((sampleInfo.Pieces.drop (20 * 0)).take 20) ∧
    PieceHash sampleInfo 5 = none :=
  ⟨(pieceHash_spec sampleBytes sampleInfo 0 (by decide) (by norm_num)).1 (by decide),
   (pieceHash_spec sampleBytes sampleInfo 5 (by decide) (by norm_num)).2 (by decide)⟩

/-- C5: for every byte string the decoder accepts, the stored infohash is the
20-byte SHA-1 digest of the raw bencoded input. -/
theorem infohash_is_sha1 (b : List Nat) (i : Info) (h : NewInfo b = some i) :
    i.Hash = sha1Bytes b :=
  (newInfo_props h).2.1

/-- C5 witness: the infohash of the sample torrent is the SHA-1 of its bytes. -/
theorem infohash_is_sha1_witness : sampleInfo.Hash = sha1Bytes sampleBytes :=
  infohash_is_sha1 sampleBytes sampleInfo (by decide)

/-- C10: GetFiles of an Info produced by NewInfo is never empty, is the Files
list exactly in multi-file mode and the singleton [Name]/Length entry
otherwise, MultiFile holds iff Files is nonempty, and the int64 sum of the
entry lengths is TotalLength. -/
theorem getFiles_spec (b : List Nat) (i : Info) (h : NewInfo b = some i) :
    GetFiles i ≠ [] ∧
    (i.MultiFile = true ↔ i.Files ≠ []) ∧
    (i.MultiFile = true → GetFiles i = i.Files) ∧
    (i.MultiFile = false → GetFiles i = [⟨i.Length, [i.Name], i.Md5sum⟩]) ∧
    sumLen64 (GetFiles i) = i.TotalLength := by
  obtain ⟨-, -, hm, ht⟩ := newInfo_props h
  obtain ⟨hl1, hl2⟩ := newInfo_length_range h
  by_cases hF : i.Files = []
  · have hme : i.MultiFile = false := by simp [hm, hF]
    refine ⟨by simp [GetFiles, hme], by simp [hme, hF], ?_, fun _ => by simp [GetFiles, hme], ?_⟩
    · intro hcon; rw [hme] at hcon; exact absurd hcon (by simp)
    · rw [ht]
      simp only [GetFiles, hme, Bool.false_eq_true, if_false, sumLen64, List.foldl_cons,
        List.foldl_nil, hF, List.isEmpty_nil, if_true]
      rw [zero_add]
      exact wrap64_eq_self hl1 hl2
  · have hne : i.Files.isEmpty = false := by
      cases hFl : i.Files with
      | nil => exact absurd hFl hF
      | cons a l => rfl
    have hme : i.MultiFile = true := by simp [hm, hne]
    refine ⟨?_, by simp [hme, hF], fun _ => by simp [GetFiles, hme], ?_, ?_⟩
    · simp [GetFiles, hme, hF]
    · intro hcon; rw [hme] at hcon; exact absurd hcon (by simp)
    · rw [ht]
      simp [GetFiles, hme, hne]

/-- C10 witness: GetFiles on the sample single-file torrent. -/
theorem getFiles_witness :
    GetFiles sampleInfo ≠ [] ∧
    (sampleInfo.MultiFile = true ↔ sampleInfo.Files ≠ []) ∧
    (sampleInfo.MultiFile = true → GetFiles sampleInfo = sampleInfo.Files) ∧
    (sampleInfo.MultiFile = false →
      GetFiles sampleInfo = [⟨sampleInfo.Length, [sampleInfo.Name], sampleInfo.Md5sum⟩]) ∧
    sumLen64 (GetFiles sampleInfo) = sampleInfo.TotalLength :=
  getFiles_spec sampleBytes sampleInfo (by decide)

/-! ## Public Torrent API (src/torrent/public.go)

Each public method is a Go select over two channel operations.  A select
case is ready when a send has a waiting receiver or a receive has a
waiting sender or a closed channel; when both cases are ready Go picks
one at random, which is modelled by an explicit preference argument.

Modelled from the spec: the engine loop (Controller) itself is not under
src/.  Per the lifecycle of the specification, while the engine loop is
alive it receives on every command channel; Close → Closing → Closed
exits the loop and closes the dedicated closedC channel (the channel the
source receives from in Start, Stop, Close and NotifyError); the command
channels themselves, including closeC, are never closed. -/

/-- Outcome of a two-case Go select: the first case ran, the second case
ran, or no case was ready and the call blocks. -/
inductive SelOutcome where
  | first
  | second
  | blocked
  deriving DecidableEq

/-- Two-case Go select given the readiness of each case; pref breaks the
tie when both are ready. -/
def select2 (r1 r2 pref : Bool) : SelOutcome :=
  if r1 && r2 then (if pref then .first else .second)
  else if r1 then .first
  else if r2 then .second
  else .blocked

/-- Channel-readiness state of a Torrent handle.  engineAlive: the engine
loop is running and receiving on the command channels.  closedCClosed:
closedC has been closed by the engine.  closeCSenderWaiting: another task
is currently blocked sending on closeC. -/
structure Torrent where
  engineAlive : Bool
  closedCClosed : Bool
  closeCSenderWaiting : Bool
  deriving DecidableEq

/-- The torrent handle once Close has taken effect: the engine loop has
exited and closedC is closed; no sender is pending on closeC. -/
def Torrent.isClosedState (t : Torrent) : Prop :=
  t.engineAlive = false ∧ t.closedCClosed = true ∧ t.closeCSenderWaiting = false

/-- The torrent handle while the engine loop runs normally. -/
def Torrent.isRunningState (t : Torrent) : Prop :=
  t.engineAlive = true ∧ t.closedCClosed = false ∧ t.closeCSenderWaiting = false

/-- Start: select { case startCommandC <- struct{}{} ; case <-closedC }. -/
def Torrent.Start (t : Torrent) (pref : Bool) : SelOutcome :=
  select2 t.engineAlive t.closedCClosed pref

/-- Stop: select { case stopCommandC <- struct{}{} ; case <-closedC }. -/
def Torrent.Stop (t : Torrent) (pref : Bool) : SelOutcome :=
  select2 t.engineAlive t.closedCClosed pref

/-- Close: select { case closeC <- struct{}{} ; case <-closedC }. -/
def Torrent.Close (t : Torrent) (pref : Bool) : SelOutcome :=
  select2 t.engineAlive t.closedCClosed pref

/-- Modelled from the spec: the engine processes a delivered Close command,
releases its resources, closes closedC and exits the loop. -/
def engineProcessClose (_t : Torrent) : Torrent := ⟨false, true, false⟩

/-- Overall outcome of a Stats call. -/
inductive StatsOutcome where
  | returnedSnapshot
  | blocked
  deriving DecidableEq

/-- Stats as written in the source: its two selects receive from closeC —
the close-command channel — not from closedC.  The first select is
select { case statsCommandC <- req ; case <-closeC }; a receive from
closeC is ready only if some other task is blocked sending on it, since
closeC is never closed.  If the request was delivered the engine answers
on req.Response; otherwise the second select has no ready case either
and the call blocks. -/
def Torrent.Stats (t : Torrent) (p1 p2 : Bool) : StatsOutcome :=
  match select2 t.engineAlive t.closeCSenderWaiting p1 with
  | .first =>
      match select2 true false p2 with
      | .first => .returnedSnapshot
      | _ => .blocked
  | .second => .blocked
  | .blocked => .blocked

/-- Result of a NotifyError call. -/
inductive NotifyErrorResult where
  | newChan
  | nilChan
  | blocked
  deriving DecidableEq

/-- NotifyError: select { case notifyErrorCommandC <- cmd ; case <-closedC },
returning a fresh error channel on delivery and nil on the closedC branch. -/
def Torrent.NotifyError (t : Torrent) (pref : Bool) : NotifyErrorResult :=
  match select2 t.engineAlive t.closedCClosed pref with
  | .first => .newChan
  | .second => .nilChan
  | .blocked => .blocked

/-- Go semantics: a receive on a nil channel is never ready (it blocks
forever). -/
def nilChanRecvReady : Bool := false

/-- Whether a NotifyError result can ever deliver an error value to a
receiver. -/
def NotifyErrorResult.deliverable : NotifyErrorResult → Bool
  | .newChan => true
  | .nilChan => nilChanRecvReady
  | .blocked => false

/-- A concrete handle in the Closed state. -/
def closedTorrent : Torrent := ⟨false, true, false⟩

/-- A concrete handle in the Running state. -/
def runningTorrent : Torrent := ⟨true, false, false⟩

/-! ## Claims C1, C2, C9 -/

/-- C1: once Close has taken effect, Start, Stop and Close all return
through the closedC branch without delivering a command to the engine,
whichever case the select would prefer; and from a running engine the
sequence Close(); Close() succeeds: the first call delivers the close
command, the second returns cleanly through closedC. -/
theorem start_stop_close_idempotent_after_close :
    (∀ (t : Torrent) (p1 p2 p3 : Bool), t.isClosedState →
      t.Start p1 = SelOutcome.second ∧ t.Stop p2 = SelOutcome.second ∧
        t.Close p3 = SelOutcome.second) ∧
    (∀ (t : Torrent) (p p' : Bool), t.isRunningState →
      t.Close p = SelOutcome.first ∧
        (engineProcessClose t).Close p' = SelOutcome.second) := by
  constructor
  · intro t p1 p2 p3 h
    obtain ⟨h1, h2, h3⟩ := h
    cases t
    simp_all [Torrent.Start, Torrent.Stop, Torrent.Close, select2]
  · intro t p p' h
    obtain ⟨h1, h2, h3⟩ := h
    cases t
    simp_all [Torrent.Close, engineProcessClose, select2]

/-- C1 witness: the concrete closed and running handles. -/
theorem start_stop_close_witness :
    closedTorrent.Start true = SelOutcome.second ∧
    closedTorrent.Stop false = SelOutcome.second ∧
    closedTorrent.Close true = SelOutcome.second ∧
    runningTorrent.Close true = SelOutcome.first ∧
    (engineProcessClose runningTorrent).Close false = SelOutcome.second := by
  obtain ⟨hc, hr⟩ := start_stop_close_idempotent_after_close
  obtain ⟨a1, a2, a3⟩ := hc closedTorrent true false true ⟨rfl, rfl, rfl⟩
  obtain ⟨b1, b2⟩ := hr runningTorrent true false ⟨rfl, rfl, rfl⟩
  exact ⟨a1, a2, a3, b1, b2⟩

/-- C2 (code bug): after Close has taken effect every select case of Stats
is unready — Stats receives from closeC, which is never closed, instead of
closedC — so Stats blocks forever instead of returning a zero snapshot; the
sibling methods on the same state do return through closedC. -/
theorem stats_blocks_after_close :
    closedTorrent.Stats true true = StatsOutcome.blocked ∧
    closedTorrent.Stats true false = StatsOutcome.blocked ∧
    closedTorrent.Stats false true = StatsOutcome.blocked ∧
    closedTorrent.Stats false false = StatsOutcome.blocked ∧
    closedTorrent.Start true = SelOutcome.second ∧
    closedTorrent.Stop true = SelOutcome.second := by decide

/-- C9: after Close has taken effect, every NotifyError call returns nil,
and a receive on that nil channel is never ready, so no error value is ever
delivered to such a caller. -/
theorem notifyError_nil_after_close (t : Torrent) (p : Bool) (h : t.isClosedState) :
    t.NotifyError p = NotifyErrorResult.nilChan ∧
    (t.NotifyError p).deliverable = false := by
  obtain ⟨h1, h2, h3⟩ := h
  cases t
  simp_all [Torrent.NotifyError, select2, NotifyErrorResult.deliverable, nilChanRecvReady]

/-- C9 witness: the concrete closed handle. -/
theorem notifyError_nil_witness :
    closedTorrent.NotifyError true = NotifyErrorResult.nilChan ∧
    (closedTorrent.NotifyError true).deliverable = false :=
  notifyError_nil_after_close closedTorrent true ⟨rfl, rfl, rfl⟩

/-! ## Completion notification (claim C6)

NotifyComplete in the source returns the stored completeC channel field.
Modelled from the spec: the engine loop (not under src/) owns the
bitfield; when a piece verifies it sets the corresponding bit, and when
the bitfield first becomes full it closes completeC, exactly once.
The channel is identified by completeCId; closeCount counts how many
times the engine closed it; bits is the bitfield. -/

/-- Whether every bit of a bitfield is set. -/
def allTrue (bs : List Bool) : Bool := bs.all (fun x => x)

/-- Engine-side completion state of one torrent. -/
structure CEngine where
  completeCId : Nat
  bits : List Bool
  completeClosed : Bool
  closeCount : Nat
  deriving DecidableEq

/-- Fresh engine state for a torrent with the given number of pieces. -/
def CEngine.init (total : Nat) : CEngine :=
  ⟨0, List.replicate total false, false, 0⟩

/-- Modelled from the spec: a piece verifies; the engine sets its bit and,
if the bitfield just became full and completeC is not yet closed, closes
completeC. -/
def CEngine.onPieceVerified (s : CEngine) (i : Nat) : CEngine :=
  let bs := s.bits.set i true
  if allTrue bs && !s.completeClosed then
    { s with bits := bs, completeClosed := true, closeCount := s.closeCount + 1 }
  else { s with bits := bs }

/-- Run the engine over a list of piece-verified events. -/
def CEngine.run (s : CEngine) : List Nat → CEngine
  | [] => s
  | i :: rest => (s.onPieceVerified i).run rest

/-- NotifyComplete of the source: return the stored completeC channel. -/
def CEngine.NotifyComplete (s : CEngine) : Nat := s.completeCId

/-- Invariant of the completion state: the channel identity never changes,
the bitfield length is the piece count, completeC is closed exactly when
the bitfield is full, and it has been closed at most once (exactly on
first fullness). -/
def cinv (total : Nat) (s : CEngine) : Prop :=
  s.completeCId = 0 ∧ s.bits.length = total ∧
  (s.completeClosed = true ↔ allTrue s.bits = true) ∧
  s.closeCount = (if s.completeClosed then 1 else 0)

/-- Setting a bit keeps a full bitfield full. -/
theorem allTrue_set {bs : List Bool} (i : Nat) (h : allTrue bs = true) :
    allTrue (bs.set i true) = true := by
  rw [allTrue, List.all_eq_true] at h ⊢
  intro x hx
  rcases List.mem_or_eq_of_mem_set hx with hm | he
  · exact h x hm
  · simp [he]

/-- One verified piece preserves the completion invariant. -/
theorem cinv_step {total : Nat} {s : CEngine} (h : cinv total s) (i : Nat) :
    cinv total (s.onPieceVerified i) := by
  obtain ⟨hid, hlen, hiff, hcnt⟩ := h
  unfold CEngine.onPieceVerified cinv
  cases hcl : s.completeClosed with
  | true =>
      have hall : allTrue (s.bits.set i true) = true := allTrue_set i (hiff.mp hcl)
      rw [hcl] at hcnt
      simp [hall, hid, hlen, hcnt]
  | false =>
      rw [hcl] at hcnt
      cases hall : allTrue (s.bits.set i true) with
      | true => simp [hall, hid, hlen, hcnt]
      | false => simp [hall, hid, hlen, hcnt]

/-- Running any event list preserves the completion invariant. -/
theorem cinv_run {total : Nat} (evs : List Nat) :
    ∀ {s : CEngine}, cinv total s → cinv total (s.run evs) := by
  induction evs with
  | nil => intro s h; exact h
  | cons i rest ih => intro s h; exact ih (cinv_step h i)

/-- The fresh engine state satisfies the completion invariant when the
torrent has at least one piece. -/
theorem cinv_init {total : Nat} (h : 0 < total) : cinv total (CEngine.init total) := by
  refine ⟨rfl, by simp [CEngine.init], ?_, rfl⟩
  cases total with
  | zero => omega
  | succ n =>
      simp [CEngine.init, List.replicate_succ, allTrue]

/-- C6: over any run of verified-piece events, NotifyComplete always returns
the one completeC channel created with the torrent, that channel is closed
at most once, and it is closed exactly when the bitfield (whose length stays
the piece count) is full — never before 100%. -/
theorem notifyComplete_spec (total : Nat) (evs evs2 : List Nat) (h : 0 < total) :
    ((CEngine.init total).run evs).NotifyComplete =
      ((CEngine.init total).run evs2).NotifyComplete ∧
    ((CEngine.init total).run evs).closeCount ≤ 1 ∧
    (((CEngine.init total).run evs).completeClosed = true ↔
      allTrue ((CEngine.init total).run evs).bits = true) ∧
    ((CEngine.init total).run evs).bits.length = total := by
  obtain ⟨a1, a2, a3, a4⟩ := cinv_run evs (cinv_init h)
  obtain ⟨b1, -, -, -⟩ := cinv_run evs2 (cinv_init h)
  refine ⟨by rw [CEngine.NotifyComplete, CEngine.NotifyComplete, a1, b1], ?_, a3, a2⟩
  rw [a4]
  cases ((CEngine.init total).run evs).completeClosed <;> simp

/-- C6 witness: a two-piece torrent completed by verifying pieces 0 and 1. -/
theorem notifyComplete_witness :
    ((CEngine.init 2).run [0, 1]).NotifyComplete =
      ((CEngine.init 2).run []).NotifyComplete ∧
    ((CEngine.init 2).run [0, 1]).closeCount ≤ 1 ∧
    (((CEngine.init 2).run [0, 1]).completeClosed = true ↔
      allTrue ((CEngine.init 2).run [0, 1]).bits = true) ∧
    ((CEngine.init 2).run [0, 1]).bits.length = 2 :=
  notifyComplete_spec 2 [0, 1] [] (by norm_num)

/-! ## The one-shot downloader loop (src/unnamed/part_000, claim C7)

handleDownload ends in
  for { select {
    case <-t.NotifyComplete(): if !c.Bool(seed) { t.Stop(); continue }
    case <-sigC: t.Stop()
    case err = <-t.NotifyError(): return err } }.
The loop is modelled over the sequence of select events it serves:
loopRun returns none while the loop is still running after all events,
some (some e) when it returned the error e, and some none would be a
return of nil (process exit 0) — which no branch performs. -/

/-- One event served by the select of the download loop. -/
inductive DlEvent where
  | complete
  | sig
  | fatalErr : Nat → DlEvent
  deriving DecidableEq

/-- The download loop of handleDownload over a list of served events. -/
def loopRun (seed : Bool) : List DlEvent → Option (Option Nat)
  | [] => none
  | DlEvent.complete :: rest => loopRun seed rest
  | DlEvent.sig :: rest => loopRun seed rest
  | DlEvent.fatalErr e :: _ => some (some e)

/-- Number of t.Stop() calls the loop issues over a list of served events. -/
def loopStops (seed : Bool) : List DlEvent → Nat
  | [] => 0
  | DlEvent.complete :: rest => (if seed then 0 else 1) + loopStops seed rest
  | DlEvent.sig :: rest => 1 + loopStops seed rest
  | DlEvent.fatalErr _ :: _ => 0

/-- C7 (code bug): with seeding not requested, completion only stops the
torrent and the loop continues — handleDownload never returns nil, so the
process never exits with status 0; a fatal error, by contrast, is returned
to the embedder. -/
theorem handleDownload_no_exit_zero :
    loopRun false [DlEvent.complete] = none ∧
    loopStops false [DlEvent.complete] = 1 ∧
    loopRun false [DlEvent.complete, DlEvent.fatalErr 3] = some (some 3) ∧
    (∀ (seed : Bool) (evs : List DlEvent),
      loopRun seed evs = none ∨ ∃ e, loopRun seed evs = some (some e)) := by
  refine ⟨by decide, by decide, by decide, ?_⟩
  intro seed evs
  induction evs with
  | nil => exact Or.inl rfl
  | cons ev rest ih =>
      cases ev with
      | complete => simpa [loopRun] using ih
      | sig => simpa [loopRun] using ih
      | fatalErr e => exact Or.inr ⟨e, rfl⟩

/-! ## Resume file name (src/unnamed/part_000, claim C8)

handleDownload persists resume data at t.Name() + "." + t.InfoHash() +
".resume".  The specification requires path separators and control
characters of the name to be replaced with an underscore first. -/

/-- The literal suffix .resume of the resume file name. -/
def resumeSuffix : List Char := ".resume".data

/-- The literal dot separating name faom hash. -/
def dotSep : List Char := ".".data

/-- The resume file name as built in the source: raw torrent name, dot,
infohash hex, .resume. -/
def resumeFileName (name hashHex : List Char) : List Char :=
  name ++ dotSep ++ hashHex ++ resumeSuffix

/-- Modelled from the spec: replace path separators and control characters
with an underscore. -/
def sanitizeChar (c : Char) : Char :=
  if c = '/' ∨ c = '\\' ∨ c.toNat < 32 ∨ c.toNat = 127 then '_' else c

/-- Modelled from the spec: the sanitized torrent name. -/
def sanitizeName (s : List Char) : List Char := s.map sanitizeChar

/-- Modelled from the spec: the resume file name as the claim states it,
with the torrent name sanitized before use. -/
def specResumeFileName (name hashHex : List Char) : List Char :=
  sanitizeName name ++ dotSep ++ hashHex ++ resumeSuffix

/-- C8 counterexample: for the torrent name a/b the source builds
a/b.ff.resume, keeping the path separator, while the claimed sanitized
name is a_b.ff.resume. -/
theorem resume_name_unsanitized_cex :
    resumeFileName ("a/b".data) ("ff".data) = "a/b.ff.resume".data ∧
    specResumeFileName ("a/b".data) ("ff".data) = "a_b.ff.resume".data ∧
    '/' ∈ resumeFileName ("a/b".data) ("ff".data) ∧
    decide (resumeFileName ("a/b".data) ("ff".data) =
      specResumeFileName ("a/b".data) ("ff".data)) = false := by decide

/-- C8 (amended): the resume record is persisted under
<torrent-name>.<infohash-hex>.resume with the torrent name used verbatim;
this coincides with the sanitized form of the claim exactly when the name
contains no path separator or control character. -/
theorem resume_name_sanitized_iff (name hashHex : List Char) :
    resumeFileName name hashHex = specResumeFileName name hashHex ↔
      sanitizeName name = name := by
  constructor
  · intro h
    unfold resumeFileName specResumeFileName at h
    simp only [List.append_assoc] at h
    have hl : (sanitizeName name).length = name.length := List.length_map _ _
    have h2 := congrArg (List.take name.length) h
    rw [List.take_left' rfl, List.take_left' hl] at h2
    exact h2.symm
  · intro h
    unfold resumeFileName specResumeFileName
    rw [h]

end Rain
